import Mathlib

/-!
Verification development for the Auto_HookPoint repository.

The Python source instruments a tree of `nn.Module`s with `HookPoint`
observation points (`src/Components/AutoHooked.py`) and adapts arbitrary
HuggingFace models to the `HookedTransformer` interface
(`src/Auto_HookPoint/HookedTransformerAdapter.py`).

We shallowly embed the module-tree data model and the wrapping, unwrapping
and traversal operations, and prove (or refute) the specification claims.
-/

namespace AutoHookPoint

/--
A PyTorch module tree, as manipulated by `AutoHooked.py`:

* `hookPoint` — a `transformer_lens` `HookPoint` (an observation point);
* `prim ps f cs` — an ordinary module: `ps` are the identities of its own
  parameter tensors, `f` records whether `has_implemented_forward` holds for
  it (`src/utils.py`), `cs` are its named children (`named_children` order);
* `mlist` / `seqC` — an `nn.ModuleList` / `nn.Sequential` (ordered
  containers, children addressed by position, names are the decimal indices);
* `mdict` — an `nn.ModuleDict` (keyed container);
* `hooked own inner` — a `HookedInstance` wrapping `inner` (its `_module`);
  `own` records whether the wrapper attached its own `hook_point`
  (`HookedInstance.__init__` attaches one iff `_module` has no `hook_point`
  attribute).
-/
inductive Module where
  | hookPoint : Module
  | prim (params : List Nat) (implForward : Bool)
      (children : List (String × Module)) : Module
  | mlist (elems : List Module) : Module
  | seqC (elems : List Module) : Module
  | mdict (entries : List (String × Module)) : Module
  | hooked (own : Bool) (inner : Module) : Module

/-- `isinstance(m, HookedInstance)`. -/
def isHooked : Module → Bool
  | .hooked _ _ => true
  | _ => false

/-- `isinstance(m, HookPoint)`. -/
def isHookPointB : Module → Bool
  | .hookPoint => true
  | _ => false

/-- `isinstance(m, (nn.ModuleList, nn.Sequential, nn.ModuleDict))`. -/
def isContainerB : Module → Bool
  | .mlist _ => true
  | .seqC _ => true
  | .mdict _ => true
  | _ => false

/--
`hasattr(m, 'hook_point')`: attribute lookup on an `nn.Module` falls back to
the registered-submodule dictionary, so a module exposes `hook_point` iff a
child is registered under that name; a `HookedInstance` exposes it iff its
`__init__` attached one (there is no `__getattr__` forwarding to `_module`).
-/
def hasHookPointAttr : Module → Bool
  | .hookPoint => false
  | .prim _ _ cs => cs.any (fun x => x.1 == "hook_point")
  | .mlist _ => false
  | .seqC _ => false
  | .mdict es => es.any (fun x => x.1 == "hook_point")
  | .hooked own _ => own

/-- `prefix + ('.' if prefix else '') + name`, the dotted-path join used
throughout `named_modules` and `generate_expected_hookpoints`. -/
def joinName (pre n : String) : String :=
  if pre = "" then n else pre ++ "." ++ n

/--
`named_children()` of a module: `prim` children in registration order,
containers by position (decimal index names) or key, and for a
`HookedInstance` the registered submodules `_module` and (if attached)
`hook_point`, in registration order.
-/
def namedChildren : Module → List (String × Module)
  | .hookPoint => []
  | .prim _ _ cs => cs
  | .mlist cs => (cs.enum).map (fun x => (toString x.1, x.2))
  | .seqC cs => (cs.enum).map (fun x => (toString x.1, x.2))
  | .mdict es => es
  | .hooked own inner =>
      ("_module", inner) :: (if own then [("hook_point", Module.hookPoint)] else [])

mutual

/--
The in-place mutation `HookedInstance._wrap_submodules` performs on
`self._module`: every named child is replaced according to the per-child
rule `wrap_child` (skip `HookPoint`s, rebuild containers with auto-hooked
elements, auto-hook everything else).
-/
def wrap_submodules : Module → Module
  | .hookPoint => .hookPoint
  | .prim ps f cs => .prim ps f (wrapNamed cs)
  | .mlist cs => .mlist (wrapChildList cs)
  | .seqC cs => .seqC (wrapChildList cs)
  | .mdict es => .mdict (wrapNamed es)
  | .hooked own inner => .hooked own (wrap_child inner)

/--
The per-child rule of `_wrap_submodules` (`AutoHooked.py` lines 152–167):
a `HookPoint` child is skipped; an `nn.ModuleList`/`nn.Sequential` child is
rebuilt as a fresh container of the same kind holding `auto_hook` of each
element; an `nn.ModuleDict` child likewise under the original keys; any
other child is replaced by `auto_hook(child)`, i.e. by
`HookedInstance(child)`.
-/
def wrap_child : Module → Module
  | .hookPoint => .hookPoint
  | .mlist cs => .mlist (autoList cs)
  | .seqC cs => .seqC (autoList cs)
  | .mdict es => .mdict (autoNamed es)
  | .prim ps f cs =>
      .hooked (!hasHookPointAttr (.prim ps f cs)) (wrap_submodules (.prim ps f cs))
  | .hooked own inner =>
      .hooked (!hasHookPointAttr (.hooked own inner)) (wrap_submodules (.hooked own inner))

/-- `auto_hook` applied to each element of an ordered container. -/
def autoList : List Module → List Module
  | [] => []
  | c :: rest => .hooked (!hasHookPointAttr c) (wrap_submodules c) :: autoList rest

/-- `auto_hook` applied to each value of a keyed container. -/
def autoNamed : List (String × Module) → List (String × Module)
  | [] => []
  | (n, c) :: rest =>
      (n, .hooked (!hasHookPointAttr c) (wrap_submodules c)) :: autoNamed rest

/-- `wrap_child` applied to each named child. -/
def wrapNamed : List (String × Module) → List (String × Module)
  | [] => []
  | (n, c) :: rest => (n, wrap_child c) :: wrapNamed rest

/-- `wrap_child` applied to each element of a container being mutated. -/
def wrapChildList : List Module → List Module
  | [] => []
  | c :: rest => wrap_child c :: wrapChildList rest

end

/--
`auto_hook` on a module instance (`AutoHooked.py` lines 64–75 and
`HookedInstance.__init__`): the instance is mutated by `_wrap_submodules`
and becomes the `_module` of a fresh `HookedInstance`, which attaches its
own `hook_point` iff the instance had no `hook_point` attribute.
-/
def auto_hook (m : Module) : Module :=
  .hooked (!hasHookPointAttr m) (wrap_submodules m)

mutual

/--
The in-place restoration `HookedInstance.unwrap_instance` performs on
`self._module` (`AutoHooked.py` lines 124–138): every named child is
processed by the per-child rule `unwrap_child` and the (mutated) `_module`
is returned.
-/
def unwrap_submodules : Module → Module
  | .hookPoint => .hookPoint
  | .prim ps f cs => .prim ps f (unwrapNamed cs)
  | .mlist cs => .mlist (unwrapChildList cs)
  | .seqC cs => .seqC (unwrapChildList cs)
  | .mdict es => .mdict (unwrapNamed es)
  | .hooked own inner => .hooked own (unwrap_child inner)

/--
The per-child rule of `unwrap_instance`: an ordered/keyed container child is
rebuilt as a fresh container of the same kind whose elements are
`unwrap_instance`d when they are `HookedInstance`s and kept otherwise; a
`HookedInstance` child is replaced by its `unwrap_instance`; any other child
is left unchanged.
-/
def unwrap_child : Module → Module
  | .hookPoint => .hookPoint
  | .prim ps f cs => .prim ps f cs
  | .mlist cs => .mlist (unwrapElemList cs)
  | .seqC cs => .seqC (unwrapElemList cs)
  | .mdict es => .mdict (unwrapElemNamed es)
  | .hooked _ inner => unwrap_submodules inner

/-- Container-element rule: `m.unwrap_instance() if isinstance(m, HookedInstance) else m`. -/
def unwrapElem : Module → Module
  | .hooked _ inner => unwrap_submodules inner
  | m => m

/-- `unwrapElem` over an ordered container's elements. -/
def unwrapElemList : List Module → List Module
  | [] => []
  | c :: rest => unwrapElem c :: unwrapElemList rest

/-- `unwrapElem` over a keyed container's entries. -/
def unwrapElemNamed : List (String × Module) → List (String × Module)
  | [] => []
  | (n, c) :: rest => (n, unwrapElem c) :: unwrapElemNamed rest

/-- `unwrap_child` over a list of named children. -/
def unwrapNamed : List (String × Module) → List (String × Module)
  | [] => []
  | (n, c) :: rest => (n, unwrap_child c) :: unwrapNamed rest

/-- `unwrap_child` over the elements of a container being restored. -/
def unwrapChildList : List Module → List Module
  | [] => []
  | c :: rest => unwrap_child c :: unwrapChildList rest

end

/-- `HookedInstance.unwrap_instance` as called on an arbitrary value. -/
def unwrap_instance : Module → Module
  | .hooked _ inner => unwrap_submodules inner
  | m => m

mutual

/-- Undoing `_wrap_submodules`: `unwrap_instance`'s mutation restores the
original children of every module. -/
theorem unwrap_wrap_submodules : (m : Module) →
    unwrap_submodules (wrap_submodules m) = m
  | .hookPoint => by simp [wrap_submodules, unwrap_submodules]
  | .prim ps f cs => by
      simp [wrap_submodules, unwrap_submodules, unwrap_wrap_named cs]
  | .mlist cs => by
      simp [wrap_submodules, unwrap_submodules, unwrap_wrap_childList cs]
  | .seqC cs => by
      simp [wrap_submodules, unwrap_submodules, unwrap_wrap_childList cs]
  | .mdict es => by
      simp [wrap_submodules, unwrap_submodules, unwrap_wrap_named es]
  | .hooked own inner => by
      simp [wrap_submodules, unwrap_submodules, unwrap_wrap_child inner]

/-- Undoing the per-child wrap rule with the per-child unwrap rule. -/
theorem unwrap_wrap_child : (c : Module) → unwrap_child (wrap_child c) = c
  | .hookPoint => by simp [wrap_child, unwrap_child]
  | .prim ps f cs => by
      simp [wrap_child, unwrap_child, unwrap_wrap_submodules (.prim ps f cs)]
  | .mlist cs => by
      simp [wrap_child, unwrap_child, unwrap_wrap_elemList cs]
  | .seqC cs => by
      simp [wrap_child, unwrap_child, unwrap_wrap_elemList cs]
  | .mdict es => by
      simp [wrap_child, unwrap_child, unwrap_wrap_elemNamed es]
  | .hooked own inner => by
      simp [wrap_child, unwrap_child, unwrap_wrap_submodules (.hooked own inner)]

theorem unwrap_wrap_named : (cs : List (String × Module)) →
    unwrapNamed (wrapNamed cs) = cs
  | [] => by simp [wrapNamed, unwrapNamed]
  | (n, c) :: rest => by
      simp [wrapNamed, unwrapNamed, unwrap_wrap_child c, unwrap_wrap_named rest]

theorem unwrap_wrap_childList : (cs : List Module) →
    unwrapChildList (wrapChildList cs) = cs
  | [] => by simp [wrapChildList, unwrapChildList]
  | c :: rest => by
      simp [wrapChildList, unwrapChildList, unwrap_wrap_child c,
        unwrap_wrap_childList rest]

theorem unwrap_wrap_elemList : (cs : List Module) →
    unwrapElemList (autoList cs) = cs
  | [] => by simp [autoList, unwrapElemList]
  | c :: rest => by
      simp [autoList, unwrapElemList, unwrapElem, unwrap_wrap_submodules c,
        unwrap_wrap_elemList rest]

theorem unwrap_wrap_elemNamed : (es : List (String × Module)) →
    unwrapElemNamed (autoNamed es) = es
  | [] => by simp [autoNamed, unwrapElemNamed]
  | (n, c) :: rest => by
      simp [autoNamed, unwrapElemNamed, unwrapElem, unwrap_wrap_submodules c,
        unwrap_wrap_elemNamed rest]

end

/-- `unwrap_instance` is a left inverse of `auto_hook` on every module. -/
theorem unwrap_instance_auto_hook (m : Module) :
    unwrap_instance (auto_hook m) = m := by
  simp [auto_hook, unwrap_instance, unwrap_wrap_submodules m]

mutual

/--
The child loop of the overridden `HookedInstance.named_modules`
(`AutoHooked.py` lines 99–122), iterating `self._module.named_children()`:
a `HookedInstance` child delegates to the override recursively, any other
child is yielded and then traversed with the standard
`nn.Module.named_modules`.
-/
def nmKids (pre : String) : Module → List (String × Module)
  | .hookPoint => []
  | .prim _ _ cs => nmKidsNamed pre cs
  | .mlist cs => nmKidsIdx pre 0 cs
  | .seqC cs => nmKidsIdx pre 0 cs
  | .mdict es => nmKidsNamed pre es
  | .hooked own inner =>
      nmKid pre "_module" inner ++
        (if own then nmKid pre "hook_point" .hookPoint else [])
termination_by m => (sizeOf m, 0)

/-- One child of the override's loop: dispatch on whether the child is a
`HookedInstance` (recurse into the override) or not (yield it, then run the
standard traversal on it). -/
def nmKid (pre n : String) : Module → List (String × Module)
  | .hooked own inner =>
      (joinName pre n, .hooked own inner) ::
        (nmKids (joinName pre n) inner ++
          (if own then [(joinName (joinName pre n) "hook_point", Module.hookPoint)]
           else []))
  | c => (joinName pre n, c) :: nmStd (joinName pre n) c
termination_by c => (sizeOf c, 2)

/-- `nmKid` over the named children of a `prim` or `mdict`. -/
def nmKidsNamed (pre : String) : List (String × Module) → List (String × Module)
  | [] => []
  | (n, c) :: rest => nmKid pre n c ++ nmKidsNamed pre rest
termination_by cs => (sizeOf cs, 0)

/-- `nmKid` over the positionally named elements of an ordered container. -/
def nmKidsIdx (pre : String) (i : Nat) : List Module → List (String × Module)
  | [] => []
  | c :: rest => nmKid pre (toString i) c ++ nmKidsIdx pre (i + 1) rest
termination_by cs => (sizeOf cs, 0)

/-- The standard `nn.Module.named_modules`: yield the module itself, then
recurse into its registered children (dispatching back into the override
for `HookedInstance` children). -/
def nmStd (pre : String) (m : Module) : List (String × Module) :=
  (pre, m) :: nmStdKids pre m
termination_by (sizeOf m, 1)

/-- The child loop of the standard `nn.Module.named_modules`. -/
def nmStdKids (pre : String) : Module → List (String × Module)
  | .hookPoint => []
  | .prim _ _ cs => nmStdNamed pre cs
  | .mlist cs => nmStdIdx pre 0 cs
  | .seqC cs => nmStdIdx pre 0 cs
  | .mdict es => nmStdNamed pre es
  | .hooked own inner =>
      nmStdKid pre "_module" inner ++
        (if own then nmStdKid pre "hook_point" .hookPoint else [])
termination_by m => (sizeOf m, 0)

/-- One child of the standard loop: `child.named_modules(memo, sub)`, which
dispatches to the override when the child is a `HookedInstance`. -/
def nmStdKid (pre n : String) : Module → List (String × Module)
  | .hooked own inner =>
      (joinName pre n, .hooked own inner) ::
        (nmKids (joinName pre n) inner ++
          (if own then [(joinName (joinName pre n) "hook_point", Module.hookPoint)]
           else []))
  | c => nmStd (joinName pre n) c
termination_by c => (sizeOf c, 2)

/-- `nmStdKid` over named children. -/
def nmStdNamed (pre : String) : List (String × Module) → List (String × Module)
  | [] => []
  | (n, c) :: rest => nmStdKid pre n c ++ nmStdNamed pre rest
termination_by cs => (sizeOf cs, 0)

/-- `nmStdKid` over the positionally named elements of an ordered container. -/
def nmStdIdx (pre : String) (i : Nat) : List Module → List (String × Module)
  | [] => []
  | c :: rest => nmStdKid pre (toString i) c ++ nmStdIdx pre (i + 1) rest
termination_by cs => (sizeOf cs, 0)

end

/--
`root.named_modules()` as a list of `(dotted name, module)` pairs: the
overridden generator when the root is a `HookedInstance` (yield the root
under the empty prefix, iterate `_module.named_children()`, and finally
yield `hook_point` when one was attached), the standard generator otherwise.
-/
def named_modules : Module → List (String × Module)
  | .hooked own inner =>
      ("", .hooked own inner) ::
        (nmKids "" inner ++ (if own then [("hook_point", Module.hookPoint)] else []))
  | m => nmStd "" m

/-- The hook names `HookedRootModule.setup` collects into `hook_dict`: the
dotted names of the yielded modules that are `HookPoint`s. -/
def hooksOf : List (String × Module) → List String
  | [] => []
  | (n, c) :: rest => if isHookPointB c then n :: hooksOf rest else hooksOf rest

/-- The set of hook names of a wrapped model (`hook_dict.keys()`). -/
def hook_names (root : Module) : List String :=
  hooksOf (named_modules root)

/--
`has_implemented_forward` (`src/utils.py` lines 6–28) on the embedded
module shapes: a `prim` carries the answer as its `implForward` field;
`nn.ModuleList`/`nn.ModuleDict` sources contain `NotImplementedError`
markers so the check is false; `nn.Sequential.forward`, `HookPoint.forward`
and a `HookedInstance`'s synthesized forward are implemented.
-/
def has_implemented_forward : Module → Bool
  | .hookPoint => true
  | .prim _ f _ => f
  | .mlist _ => false
  | .seqC _ => true
  | .mdict _ => false
  | .hooked _ _ => true

mutual

/--
Claim-side definition, following the specification's words for hook
completeness: "the set of dotted paths to every child that (a) has an
implemented forward computation and (b) is not itself an observation point —
recursively, at every depth", each path suffixed with `.hook_point`.
-/
def spec_hookpoints (pre : String) : Module → List String
  | .hookPoint => []
  | .prim _ _ cs => specNamed pre cs
  | .mlist cs => specIdx pre 0 cs
  | .seqC cs => specIdx pre 0 cs
  | .mdict es => specNamed pre es
  | .hooked own inner =>
      specOne pre "_module" inner ++
        (if own then specOne pre "hook_point" .hookPoint else [])
termination_by m => (sizeOf m, 0)

/-- One child of the claim-side enumeration. -/
def specOne (pre n : String) (c : Module) : List String :=
  (if has_implemented_forward c && !isHookPointB c
   then [joinName pre n ++ ".hook_point"] else []) ++
    spec_hookpoints (joinName pre n) c
termination_by (sizeOf c, 1)

/-- `specOne` over named children. -/
def specNamed (pre : String) : List (String × Module) → List String
  | [] => []
  | (n, c) :: rest => specOne pre n c ++ specNamed pre rest
termination_by cs => (sizeOf cs, 0)

/-- `specOne` over positionally named elements. -/
def specIdx (pre : String) (i : Nat) : List Module → List String
  | [] => []
  | c :: rest => specOne pre (toString i) c ++ specIdx pre (i + 1) rest
termination_by cs => (sizeOf cs, 0)

end

mutual

/--
The hook names `auto_hook m` actually produces, characterized recursively on
the original (pre-wrap) tree and placed under prefix `pre`: the hooks
contributed below the wrapped node, plus the node's own `hook_point` when
the original did not already expose one.
-/
def wrapHooks (pre : String) (m : Module) : List String :=
  childHooks pre m ++
    (if hasHookPointAttr m then [] else [joinName pre "hook_point"])
termination_by (sizeOf m, 1)

/-- Hooks contributed by the (wrapped) children of `m`. -/
def childHooks (pre : String) : Module → List String
  | .hookPoint => []
  | .prim _ _ cs => chNamed pre cs
  | .mlist cs => chIdx pre 0 cs
  | .seqC cs => chIdx pre 0 cs
  | .mdict es => chNamed pre es
  | .hooked own inner =>
      chOne pre "_module" inner ++
        (if own then chOne pre "hook_point" .hookPoint else [])
termination_by m => (sizeOf m, 0)

/--
Hooks contributed at child position `n` by an original child `c`: a
`HookPoint` child keeps its own dotted path as a hook name; a container
child contributes no hook of its own, only the hooks of its auto-hooked
elements; every other child is auto-hooked in place.
-/
def chOne (pre n : String) : Module → List String
  | .hookPoint => [joinName pre n]
  | .mlist cs => elemHooks (joinName pre n) 0 cs
  | .seqC cs => elemHooks (joinName pre n) 0 cs
  | .mdict es => elemHooksNamed (joinName pre n) es
  | .prim ps f cs => wrapHooks (joinName pre n) (.prim ps f cs)
  | .hooked own inner => wrapHooks (joinName pre n) (.hooked own inner)
termination_by c => (sizeOf c, 2)

/-- `chOne` over named children. -/
def chNamed (pre : String) : List (String × Module) → List String
  | [] => []
  | (n, c) :: rest => chOne pre n c ++ chNamed pre rest
termination_by cs => (sizeOf cs, 0)

/-- `chOne` over positionally named elements. -/
def chIdx (pre : String) (i : Nat) : List Module → List String
  | [] => []
  | c :: rest => chOne pre (toString i) c ++ chIdx pre (i + 1) rest
termination_by cs => (sizeOf cs, 0)

/-- Hooks of the auto-hooked elements of an ordered container child. -/
def elemHooks (pre : String) (i : Nat) : List Module → List String
  | [] => []
  | c :: rest => wrapHooks (joinName pre (toString i)) c ++ elemHooks pre (i + 1) rest
termination_by cs => (sizeOf cs, 0)

/-- Hooks of the auto-hooked values of a keyed container child. -/
def elemHooksNamed (pre : String) : List (String × Module) → List String
  | [] => []
  | (n, c) :: rest => wrapHooks (joinName pre n) c ++ elemHooksNamed pre rest
termination_by es => (sizeOf es, 0)

end

theorem hooksOf_append (a b : List (String × Module)) :
    hooksOf (a ++ b) = hooksOf a ++ hooksOf b := by
  induction a with
  | nil => simp [hooksOf]
  | cons x rest ih =>
      obtain ⟨n, c⟩ := x
      by_cases h : isHookPointB c <;> simp [hooksOf, h, ih]

mutual

/-- The hooks yielded while iterating the wrapped children of `m` in the
overridden `named_modules` agree (as a set) with `childHooks`. -/
theorem mem_hooks_kids : (m : Module) → (pre s : String) →
    (s ∈ hooksOf (nmKids pre (wrap_submodules m)) ↔ s ∈ childHooks pre m)
  | .hookPoint, pre, s => by
      simp [wrap_submodules, nmKids, childHooks, hooksOf]
  | .prim ps f cs, pre, s => by
      simp only [wrap_submodules, nmKids, childHooks]
      exact mem_hooks_named cs pre s
  | .mlist cs, pre, s => by
      simp only [wrap_submodules, nmKids, childHooks]
      exact mem_hooks_idx cs pre 0 s
  | .seqC cs, pre, s => by
      simp only [wrap_submodules, nmKids, childHooks]
      exact mem_hooks_idx cs pre 0 s
  | .mdict es, pre, s => by
      simp only [wrap_submodules, nmKids, childHooks]
      exact mem_hooks_named es pre s
  | .hooked own inner, pre, s => by
      have h1 := mem_hooks_one inner pre "_module" s
      have h2 := mem_hooks_one .hookPoint pre "hook_point" s
      simp only [wrap_child] at h2
      cases own <;>
        simp [wrap_submodules, nmKids, childHooks, hooksOf_append, h1, h2]

/-- The hooks yielded for one wrapped child at position `n` agree (as a set)
with `chOne` on the original child. -/
theorem mem_hooks_one : (c : Module) → (pre n s : String) →
    (s ∈ hooksOf (nmKid pre n (wrap_child c)) ↔ s ∈ chOne pre n c)
  | .hookPoint, pre, n, s => by
      simp [wrap_child, nmKid, nmStd, nmStdKids, chOne, hooksOf, isHookPointB]
  | .mlist cs, pre, n, s => by
      simp only [wrap_child, nmKid, nmStd, nmStdKids, chOne, hooksOf,
        isHookPointB, if_neg, Bool.false_eq_true, ite_false]
      exact mem_hooks_elem_idx cs (joinName pre n) 0 s
  | .seqC cs, pre, n, s => by
      simp only [wrap_child, nmKid, nmStd, nmStdKids, chOne, hooksOf,
        isHookPointB, if_neg, Bool.false_eq_true, ite_false]
      exact mem_hooks_elem_idx cs (joinName pre n) 0 s
  | .mdict es, pre, n, s => by
      simp only [wrap_child, nmKid, nmStd, nmStdKids, chOne, hooksOf,
        isHookPointB, if_neg, Bool.false_eq_true, ite_false]
      exact mem_hooks_elem_named es (joinName pre n) s
  | .prim ps f cs, pre, n, s => by
      have h1 := mem_hooks_kids (.prim ps f cs) (joinName pre n) s
      by_cases hh : hasHookPointAttr (.prim ps f cs) <;>
        simp [wrap_child, nmKid, chOne, wrapHooks, hooksOf_append, hooksOf,
          isHookPointB, h1, hh]
  | .hooked own inner, pre, n, s => by
      have h1 := mem_hooks_kids (.hooked own inner) (joinName pre n) s
      by_cases hh : hasHookPointAttr (.hooked own inner) <;>
        simp [wrap_child, nmKid, chOne, wrapHooks, hooksOf_append, hooksOf,
          isHookPointB, h1, hh]

theorem mem_hooks_named : (cs : List (String × Module)) → (pre s : String) →
    (s ∈ hooksOf (nmKidsNamed pre (wrapNamed cs)) ↔ s ∈ chNamed pre cs)
  | [], pre, s => by simp [wrapNamed, nmKidsNamed, chNamed, hooksOf]
  | (n, c) :: rest, pre, s => by
      simp only [wrapNamed, nmKidsNamed, chNamed, hooksOf_append, List.mem_append,
        mem_hooks_one c pre n s, mem_hooks_named rest pre s]

theorem mem_hooks_idx : (cs : List Module) → (pre : String) → (i : Nat) →
    (s : String) →
    (s ∈ hooksOf (nmKidsIdx pre i (wrapChildList cs)) ↔ s ∈ chIdx pre i cs)
  | [], pre, i, s => by simp [wrapChildList, nmKidsIdx, chIdx, hooksOf]
  | c :: rest, pre, i, s => by
      simp only [wrapChildList, nmKidsIdx, chIdx, hooksOf_append, List.mem_append,
        mem_hooks_one c pre (toString i) s, mem_hooks_idx rest pre (i + 1) s]

/-- Standard-traversal hooks of the auto-hooked elements of an ordered
container agree (as a set) with `elemHooks`. -/
theorem mem_hooks_elem_idx : (cs : List Module) → (pre : String) → (i : Nat) →
    (s : String) →
    (s ∈ hooksOf (nmStdIdx pre i (autoList cs)) ↔ s ∈ elemHooks pre i cs)
  | [], pre, i, s => by simp [autoList, nmStdIdx, elemHooks, hooksOf]
  | c :: rest, pre, i, s => by
      have h1 := mem_hooks_kids c (joinName pre (toString i)) s
      have h2 := mem_hooks_elem_idx rest pre (i + 1) s
      by_cases hh : hasHookPointAttr c <;>
        simp [autoList, nmStdIdx, nmStdKid, elemHooks, wrapHooks, childHooks,
          hooksOf_append, hooksOf, isHookPointB, h1, h2, hh]

/-- Standard-traversal hooks of the auto-hooked values of a keyed container
agree (as a set) with `elemHooksNamed`. -/
theorem mem_hooks_elem_named : (es : List (String × Module)) → (pre s : String) →
    (s ∈ hooksOf (nmStdNamed pre (autoNamed es)) ↔ s ∈ elemHooksNamed pre es)
  | [], pre, s => by simp [autoNamed, nmStdNamed, elemHooksNamed, hooksOf]
  | (n, c) :: rest, pre, s => by
      have h1 := mem_hooks_kids c (joinName pre n) s
      have h2 := mem_hooks_elem_named rest pre s
      by_cases hh : hasHookPointAttr c <;>
        simp [autoNamed, nmStdNamed, nmStdKid, elemHooksNamed, wrapHooks,
          childHooks, hooksOf_append, hooksOf, isHookPointB, h1, h2, hh]

end

/-- The set of hook names `auto_hook m` produces is `wrapHooks "" m`. -/
theorem mem_hook_names_auto_hook (m : Module) (s : String) :
    s ∈ hook_names (auto_hook m) ↔ s ∈ wrapHooks "" m := by
  have h1 := mem_hooks_kids m "" s
  by_cases hh : hasHookPointAttr m <;>
    simp [hook_names, auto_hook, named_modules, wrapHooks, hooksOf_append,
      hooksOf, isHookPointB, joinName, h1, hh]

/-- `namedChildren` of the `_wrap_submodules`-mutated module: every original
child is replaced, under its original name, by `wrap_child` of it. -/
theorem namedChildren_wrap_submodules (m : Module) :
    namedChildren (wrap_submodules m)
      = (namedChildren m).map (fun x => (x.1, wrap_child x.2)) := by
  cases m with
  | hookPoint => simp [wrap_submodules, namedChildren]
  | prim ps f cs =>
      simp only [wrap_submodules, namedChildren]
      induction cs with
      | nil => simp [wrapNamed]
      | cons x rest ih => obtain ⟨n, c⟩ := x; simp [wrapNamed, ih]
  | mlist cs =>
      simp only [wrap_submodules, namedChildren]
      have h : wrapChildList cs = cs.map wrap_child := by
        induction cs with
        | nil => simp [wrapChildList]
        | cons c rest ih => simp [wrapChildList, ih]
      simp [h, List.enum_map, Function.comp]
  | seqC cs =>
      simp only [wrap_submodules, namedChildren]
      have h : wrapChildList cs = cs.map wrap_child := by
        induction cs with
        | nil => simp [wrapChildList]
        | cons c rest ih => simp [wrapChildList, ih]
      simp [h, List.enum_map, Function.comp]
  | mdict es =>
      simp only [wrap_submodules, namedChildren]
      induction es with
      | nil => simp [wrapNamed]
      | cons x rest ih => obtain ⟨n, c⟩ := x; simp [wrapNamed, ih]
  | hooked own inner =>
      cases own <;> simp [wrap_submodules, namedChildren, wrap_child]

/-- `autoList` is elementwise `auto_hook`, in order. -/
theorem autoList_eq_map (cs : List Module) : autoList cs = cs.map auto_hook := by
  induction cs with
  | nil => simp [autoList]
  | cons c rest ih => simp [autoList, auto_hook, ih]

/-- `autoNamed` is elementwise `auto_hook` under the original keys. -/
theorem autoNamed_eq_map (es : List (String × Module)) :
    autoNamed es = es.map (fun x => (x.1, auto_hook x.2)) := by
  induction es with
  | nil => simp [autoNamed]
  | cons x rest ih => obtain ⟨n, c⟩ := x; simp [autoNamed, auto_hook, ih]

/-
The interface-adapter layer (`src/Auto_HookPoint/HookedTransformerAdapter.py`).
External collaborators (HuggingFace model/tokenizer loading) are passed in as
parameters; fallible Python code is modelled with `Except`.
-/

/-- A tensor, identified by object identity (numeric contents are out of
scope for the adapter's control flow). -/
structure Tensor where
  tid : Nat
deriving DecidableEq

/-- The Python exception kinds raised by the adapter code, with messages. -/
inductive PyError where
  | notImplementedError (msg : String)
  | valueError (msg : String)
  | assertionError (msg : String)
  | attributeError (msg : String)
deriving DecidableEq

/-- The tokenizer fields touched by the adapter. -/
structure Tokenizer where
  eos_token : Option String
  pad_token : Option String
deriving DecidableEq

/-- The `HookedTransformerConfig` fields the constructor's tokenizer
resolution reads. -/
structure HTConfig where
  tokenizer_name : Option String
  d_vocab : Int
deriving DecidableEq

/--
`HookedTransformerAdapter.validate_args` (lines 217–224): raises iff
`(hf_model_name is not None) == (model is not None or tokenizer is not None)`.
-/
def validate_args (hf_model_name : Option String) (model : Option Module)
    (tokenizer : Option Tokenizer) : Except PyError Unit :=
  if hf_model_name.isSome = (model.isSome || tokenizer.isSome) then
    .error (.valueError
      "Provide either a model name or both model and tokenizer objects, not both or neither.")
  else .ok ()

/--
The model-resolution step of `__init__` (lines 140–149): after
`validate_args`, a string name loads a pretrained model (external, passed as
`from_pretrained`) and auto-hooks it; a module plus tokenizer is auto-hooked
directly; anything else raises `ValueError`.
-/
def resolve_model (hf_model_name : Option String) (model : Option Module)
    (tokenizer : Option Tokenizer) (from_pretrained : String → Module) :
    Except PyError Module :=
  match validate_args hf_model_name model tokenizer with
  | .error e => .error e
  | .ok _ =>
      match hf_model_name with
      | some nm => .ok (auto_hook (from_pretrained nm))
      | none =>
          match model, tokenizer with
          | some m, some _ => .ok (auto_hook m)
          | _, _ => .error (.valueError
              "Invalid input. Provide either a model name (str) or both model and tokenizer objects.")

/--
The tokenizer-resolution branch of `__init__` (lines 154–189): an explicit
tokenizer wins; else a `tokenizer_name` in the config is fetched remotely
(external loader passed as `load_from_hf`) unless it is on the non-hostable
list (warning only, tokenizer left unset); else, with no name, the code
asserts `d_vocab != -1` and sets the tokenizer to `None`.
-/
def resolve_tokenizer (tokenizer : Option Tokenizer) (cfg : HTConfig)
    (load_from_hf : String → Tokenizer) (non_hosted : String → Bool) :
    Except PyError (Option Tokenizer) :=
  match tokenizer with
  | some t => .ok (some t)
  | none =>
      match cfg.tokenizer_name with
      | some nm =>
          if non_hosted nm then .ok none
          else .ok (some (load_from_hf nm))
      | none =>
          if cfg.d_vocab = -1 then
            .error (.assertionError "Must provide a tokenizer if d_vocab is not provided")
          else .ok none

/--
Line 191 of `__init__`: `self.tokenizer.pad_token = self.tokenizer.eos_token`
executes unconditionally after tokenizer resolution; when the tokenizer is
`None` (or unset), Python raises `AttributeError`.
-/
def force_pad_token : Option Tokenizer → Except PyError (Option Tokenizer)
  | none => .error (.attributeError "NoneType object has no attribute eos_token")
  | some t => .ok (some { t with pad_token := t.eos_token })

/-- The tokenizer pipeline of `__init__`: resolution followed by the
unconditional pad-token assignment. -/
def init_tokenizer (tokenizer : Option Tokenizer) (cfg : HTConfig)
    (load_from_hf : String → Tokenizer) (non_hosted : String → Bool) :
    Except PyError (Option Tokenizer) :=
  match resolve_tokenizer tokenizer cfg load_from_hf non_hosted with
  | .error e => .error e
  | .ok t => force_pad_token t

/--
The forward computation synthesized by `HookedInstance._create_forward`
(lines 169–178): `new_forward(*args, **kwargs)` returns
`self.hook_point(original_forward(*args, **kwargs))`. A forward routine is
modelled as a function of its positional arguments and keyword arguments.
-/
def new_forward (original_forward : List Nat → List (String × Nat) → Nat)
    (hook_point : Nat → Nat) (args : List Nat)
    (kwargs : List (String × Nat)) : Nat :=
  hook_point (original_forward args kwargs)

/--
The block wrapper of `HookedTransformerAdapter._wrap_block` (lines
241–249): `wrapped_forward(*args, **kwargs)` returns
`original_forward(*args)` — keyword arguments are dropped.
-/
def wrapped_forward (original_forward : List Nat → List (String × Nat) → Nat)
    (args : List Nat) (_kwargs : List (String × Nat)) : Nat :=
  original_forward args []

/-- The adapter state read by the weight accessors that do work
(`W_E` returns `self.embed.weight`). -/
structure Adapter where
  embed_weight : Tensor

/-- The message of every unsupported-accessor error in the adapter. -/
def adapter_unsupported_msg : String :=
  "This method is not implemented for HookedTransformerAdapter"

/-- `HookedTransformerAdapter.W_E` (lines 267–270): returns the embedding
matrix. -/
def W_E (self : Adapter) : Except PyError Tensor := .ok self.embed_weight

/-- `HookedTransformerAdapter.W_K` raises `NotImplementedError`. -/
def W_K (_self : Adapter) : Except PyError Tensor :=
  .error (.notImplementedError adapter_unsupported_msg)

/-- `HookedTransformerAdapter.W_Q` raises `NotImplementedError`. -/
def W_Q (_self : Adapter) : Except PyError Tensor :=
  .error (.notImplementedError adapter_unsupported_msg)

/-- `HookedTransformerAdapter.W_V` raises `NotImplementedError`. -/
def W_V (_self : Adapter) : Except PyError Tensor :=
  .error (.notImplementedError adapter_unsupported_msg)

/-- `HookedTransformerAdapter.W_O` raises `NotImplementedError`. -/
def W_O (_self : Adapter) : Except PyError Tensor :=
  .error (.notImplementedError adapter_unsupported_msg)

/-- `HookedTransformerAdapter.W_in` raises `NotImplementedError`. -/
def W_in (_self : Adapter) : Except PyError Tensor :=
  .error (.notImplementedError adapter_unsupported_msg)

/-- `HookedTransformerAdapter.W_gate` raises `NotImplementedError`. -/
def W_gate (_self : Adapter) : Except PyError Tensor :=
  .error (.notImplementedError adapter_unsupported_msg)

/-- `HookedTransformerAdapter.W_out` raises `NotImplementedError`. -/
def W_out (_self : Adapter) : Except PyError Tensor :=
  .error (.notImplementedError adapter_unsupported_msg)

/-- `HookedTransformerAdapter.b_K` raises `NotImplementedError`. -/
def b_K (_self : Adapter) : Except PyError Tensor :=
  .error (.notImplementedError adapter_unsupported_msg)

/-- `HookedTransformerAdapter.b_Q` raises `NotImplementedError`. -/
def b_Q (_self : Adapter) : Except PyError Tensor :=
  .error (.notImplementedError adapter_unsupported_msg)

/-- `HookedTransformerAdapter.b_V` raises `NotImplementedError`. -/
def b_V (_self : Adapter) : Except PyError Tensor :=
  .error (.notImplementedError adapter_unsupported_msg)

/-- `HookedTransformerAdapter.b_O` raises `NotImplementedError`. -/
def b_O (_self : Adapter) : Except PyError Tensor :=
  .error (.notImplementedError adapter_unsupported_msg)

/-- `HookedTransformerAdapter.b_in` raises `NotImplementedError`. -/
def b_in (_self : Adapter) : Except PyError Tensor :=
  .error (.notImplementedError adapter_unsupported_msg)

/-- `HookedTransformerAdapter.b_out` raises `NotImplementedError`. -/
def b_out (_self : Adapter) : Except PyError Tensor :=
  .error (.notImplementedError adapter_unsupported_msg)

/-- `HookedTransformerAdapter.QK` raises `NotImplementedError`. -/
def QK (_self : Adapter) : Except PyError Tensor :=
  .error (.notImplementedError adapter_unsupported_msg)

/-- `HookedTransformerAdapter.OV` raises `NotImplementedError`. -/
def OV (_self : Adapter) : Except PyError Tensor :=
  .error (.notImplementedError adapter_unsupported_msg)

/--
`auto_hook` on an instance (lines 72–75) additionally installs
`Hooked.unwrap = lambda: module_or_class`: the lambda returns the argument
object itself, whose state — after `HookedInstance.__init__` ran
`_wrap_submodules` on it — is the mutated module, not a restored copy.
-/
def unwrap_lambda (m : Module) : Module := wrap_submodules m

/-- A list mapped to itself maps every member to itself. -/
theorem map_self_mem {α : Type} (l : List α) (f : α → α) (h : l.map f = l) :
    ∀ x ∈ l, f x = x := by
  induction l with
  | nil => simp
  | cons a rest ih =>
      simp only [List.map_cons, List.cons.injEq] at h
      intro x hx
      rcases List.mem_cons.mp hx with rfl | hx
      · exact h.1
      · exact ih h.2 x hx

/--
Claim C1: for every module `m`, unwrapping a wrapped instance is a left
inverse of wrapping — `unwrap_instance (auto_hook m)` is identical to `m`:
same concrete container types, same child order and keys, same parameter
tensor identities (the `params` fields are untouched, hence shared), and all
synthetic wrapper nodes and attached hook points are removed.
-/
theorem claim_C1_unwrap_left_inverse (m : Module) :
    unwrap_instance (auto_hook m) = m :=
  unwrap_instance_auto_hook m

/--
Claim C2: wrapping is idempotent — wrapping a previously
wrapped-then-unwrapped module produces exactly the same set of hook names as
wrapping it once, and wrapping an already-wrapped instance that exposes a
`hook_point` attaches no second observation point on the wrapper
(the guard at `AutoHooked.py` lines 85–86).
-/
theorem claim_C2_idempotent_wrap (m : Module) :
    (hook_names (auto_hook (unwrap_instance (auto_hook m)))).toFinset
        = (hook_names (auto_hook m)).toFinset
      ∧ (hasHookPointAttr (auto_hook m) = true →
          auto_hook (auto_hook m)
            = .hooked false (wrap_submodules (auto_hook m))) := by
  constructor
  · rw [unwrap_instance_auto_hook m]
  · intro h
    have e : auto_hook (auto_hook m)
        = .hooked (!hasHookPointAttr (auto_hook m)) (wrap_submodules (auto_hook m)) := rfl
    rw [e, h]
    rfl

/-- Witness for claim C2 at the one-child module from the repository's
tests. -/
theorem claim_C2_witness :
    (hook_names (auto_hook (unwrap_instance
          (auto_hook (.prim [] true [("inner1", .prim [1, 2] true [])]))))).toFinset
        = (hook_names (auto_hook (.prim [] true [("inner1", .prim [1, 2] true [])]))).toFinset
      ∧ auto_hook (auto_hook (.prim [] true [("inner1", .prim [1, 2] true [])]))
        = .hooked false (wrap_submodules
            (auto_hook (.prim [] true [("inner1", .prim [1, 2] true [])]))) :=
  ⟨(claim_C2_idempotent_wrap (.prim [] true [("inner1", .prim [1, 2] true [])])).1,
   (claim_C2_idempotent_wrap (.prim [] true [("inner1", .prim [1, 2] true [])])).2
     (by decide)⟩

/--
Claim C3 counterexample: the claim says the hook-name set of `wrap(m)`
equals the dotted paths of the descendants with an implemented forward that
are not observation points, suffixed with `.hook_point`. On the module with
a single child `c` whose forward is unimplemented, that claimed set is
empty, but wrapping produces the hooks `c.hook_point` (children are wrapped
regardless of `has_implemented_forward`) and `hook_point` (the root's own).
-/
theorem claim_C3_counterexample :
    ¬ ((hook_names (auto_hook (.prim [] true [("c", .prim [] false [])]))).toFinset
        = (spec_hookpoints "" (.prim [] true [("c", .prim [] false [])])).toFinset) := by
  have e1 : hook_names (auto_hook (.prim [] true [("c", .prim [] false [])]))
      = ["c.hook_point", "hook_point"] := by
    simp [hook_names, auto_hook, named_modules, nmKids, nmKid, nmStd,
      nmStdKids, nmKidsNamed, wrap_submodules, wrapNamed, wrap_child,
      hasHookPointAttr, hooksOf, isHookPointB, joinName]
  have e2 : spec_hookpoints "" (.prim [] true [("c", .prim [] false [])]) = [] := by
    simp [spec_hookpoints, specNamed, specOne, has_implemented_forward,
      isHookPointB, joinName]
  rw [e1, e2]
  decide

/--
Claim C3 amended: the set of hook names produced by `wrap(m)` equals
`wrapHooks "" m` — the dotted path of every `HookPoint` child, plus
`path.hook_point` for every non-container, non-`HookPoint` descendant child
reached through child and container positions (regardless of whether its
forward is implemented; containers contribute no hook of their own), plus
the root's own `hook_point` when the root does not already expose one.
-/
theorem claim_C3_hook_names (m : Module) :
    (hook_names (auto_hook m)).toFinset = (wrapHooks "" m).toFinset := by
  ext s
  simp [List.mem_toFinset, mem_hook_names_auto_hook]

/--
Claim C4 counterexample: the claim says the synthesized forward invokes the
original forward with the positional arguments only, dropping keyword
arguments. `_create_forward`'s `new_forward` actually forwards
`**kwargs` too: on an original forward returning the number of keyword
arguments it receives, the synthesized forward applied to one keyword
argument differs from the claimed keyword-stripped invocation.
-/
theorem claim_C4_counterexample :
    ¬ (new_forward (fun _ kw => kw.length) id [] [("scale", 2)]
        = id ((fun (_ : List Nat) (kw : List (String × Nat)) => kw.length) [] [])) := by
  decide

/--
Claim C4 amended: the synthesized forward of a wrapped node invokes the
original pre-wrap forward with both the positional and the keyword
arguments and routes the result through the node's own observation point;
only the adapter's block-sequence wrapper strips keyword arguments,
invoking the original block forward with positional arguments alone.
-/
theorem claim_C4_forward_semantics
    (orig : List Nat → List (String × Nat) → Nat) (hp : Nat → Nat)
    (args : List Nat) (kwargs : List (String × Nat)) :
    new_forward orig hp args kwargs = hp (orig args kwargs)
      ∧ wrapped_forward orig args kwargs = orig args [] :=
  ⟨rfl, rfl⟩

/--
Claim C5: wrapping preserves container structure — an `nn.ModuleList`
(resp. `nn.Sequential`) child with `k` elements becomes a container of the
same concrete kind holding the `k` auto-hooked elements in the original
order, and an `nn.ModuleDict` child keeps every original key exactly once,
each mapped to the auto-hooked original value.
-/
theorem claim_C5_container_fidelity (m : Module) (n : String) :
    (∀ cs, (n, Module.mlist cs) ∈ namedChildren m →
        (n, Module.mlist (cs.map auto_hook)) ∈ namedChildren (wrap_submodules m)
          ∧ (cs.map auto_hook).length = cs.length)
      ∧ (∀ cs, (n, Module.seqC cs) ∈ namedChildren m →
          (n, Module.seqC (cs.map auto_hook)) ∈ namedChildren (wrap_submodules m)
            ∧ (cs.map auto_hook).length = cs.length)
      ∧ (∀ es, (n, Module.mdict es) ∈ namedChildren m →
          (n, Module.mdict (es.map (fun x => (x.1, auto_hook x.2))))
              ∈ namedChildren (wrap_submodules m)
            ∧ (es.map (fun x => (x.1, auto_hook x.2))).map Prod.fst
              = es.map Prod.fst) := by
  refine ⟨fun cs h => ⟨?_, by simp⟩, fun cs h => ⟨?_, by simp⟩,
    fun es h => ⟨?_, by simp⟩⟩ <;>
  · rw [namedChildren_wrap_submodules]
    have h2 := List.mem_map_of_mem (fun x => (x.1, wrap_child x.2)) h
    simpa [wrap_child, autoList_eq_map, autoNamed_eq_map] using h2

/-- Witness for claim C5 at a module holding a one-element ordered
container. -/
theorem claim_C5_witness :
    ("a", Module.mlist ([Module.prim [] true []].map auto_hook))
        ∈ namedChildren (wrap_submodules
            (.prim [] true [("a", .mlist [.prim [] true []])]))
      ∧ ([Module.prim [] true []].map auto_hook).length
        = [Module.prim [] true []].length :=
  (claim_C5_container_fidelity
      (.prim [] true [("a", .mlist [.prim [] true []])]) "a").1
    [Module.prim [] true []] (by simp [namedChildren])

/--
Claim C6 counterexample: the claim says wrapping fails with an
`InvalidTreeError` when a declared child is neither a recognized container
nor a standalone computational unit. The implementation has no such error
and no failure path: on a module whose child `c` has no implemented forward
computation (so it is no computational unit, and is neither a container nor
an observation point), wrapping succeeds and returns the instrumented tree,
hook attached to `c` included.
-/
theorem claim_C6_counterexample :
    auto_hook (.prim [] true [("c", .prim [] false [])])
      = .hooked true (.prim [] true [("c", .hooked true (.prim [] false []))]) := by
  simp [auto_hook, wrap_submodules, wrapNamed, wrap_child, hasHookPointAttr]

/--
Claim C6 amended: wrapping never fails — every declared child is
interpreted by `_wrap_submodules`: an observation-point child is skipped
unchanged, an ordered or keyed container child is rebuilt of the same kind
with auto-hooked elements, and every other child (computational or not) is
replaced by its auto-hooked wrapper; no `InvalidTreeError` exists.
-/
theorem claim_C6_wrap_total (m : Module) (n : String) (c : Module)
    (h : (n, c) ∈ namedChildren m) :
    (n, wrap_child c) ∈ namedChildren (wrap_submodules m)
      ∧ (isHookPointB c = true → wrap_child c = c)
      ∧ (∀ cs, c = .mlist cs → wrap_child c = .mlist (cs.map auto_hook))
      ∧ (∀ cs, c = .seqC cs → wrap_child c = .seqC (cs.map auto_hook))
      ∧ (∀ es, c = .mdict es →
          wrap_child c = .mdict (es.map (fun x => (x.1, auto_hook x.2))))
      ∧ (isHookPointB c = false → isContainerB c = false →
          wrap_child c = auto_hook c) := by
  refine ⟨?_, ?_, ?_, ?_, ?_, ?_⟩
  · rw [namedChildren_wrap_submodules]
    exact List.mem_map_of_mem (fun x => (x.1, wrap_child x.2)) h
  · cases c <;> simp [isHookPointB, wrap_child]
  · rintro cs rfl; simp [wrap_child, autoList_eq_map]
  · rintro cs rfl; simp [wrap_child, autoList_eq_map]
  · rintro es rfl; simp [wrap_child, autoNamed_eq_map]
  · cases c <;> simp [isHookPointB, isContainerB, wrap_child, auto_hook]

/-- Witness for claim C6 at a module whose child has no implemented
forward. -/
theorem claim_C6_witness :
    ("c", wrap_child (.prim [] false []))
        ∈ namedChildren (wrap_submodules (.prim [] true [("c", .prim [] false [])]))
      ∧ (isHookPointB (.prim [] false []) = true →
          wrap_child (.prim [] false []) = .prim [] false [])
      ∧ (∀ cs, (Module.prim [] false []) = .mlist cs →
          wrap_child (.prim [] false []) = .mlist (cs.map auto_hook))
      ∧ (∀ cs, (Module.prim [] false []) = .seqC cs →
          wrap_child (.prim [] false []) = .seqC (cs.map auto_hook))
      ∧ (∀ es, (Module.prim [] false []) = .mdict es →
          wrap_child (.prim [] false [])
            = .mdict (es.map (fun x => (x.1, auto_hook x.2))))
      ∧ (isHookPointB (.prim [] false []) = false →
          isContainerB (.prim [] false []) = false →
          wrap_child (.prim [] false []) = auto_hook (.prim [] false [])) :=
  claim_C6_wrap_total (.prim [] true [("c", .prim [] false [])]) "c"
    (.prim [] false []) (by simp [namedChildren])

/--
Claim C7: on every adapted model, each of the fifteen accessors `W_Q`,
`W_K`, `W_V`, `W_O`, `W_in`, `W_gate`, `W_out`, `b_Q`, `b_K`, `b_V`, `b_O`,
`b_in`, `b_out`, `QK`, `OV` raises the distinguishable
unsupported-for-adapted-models error (`NotImplementedError` naming the
adapter) and never returns a tensor.
-/
theorem claim_C7_unsupported_accessors (a : Adapter) :
    (W_Q a = .error (.notImplementedError adapter_unsupported_msg)
        ∧ ∀ t, W_Q a ≠ .ok t)
      ∧ (W_K a = .error (.notImplementedError adapter_unsupported_msg)
        ∧ ∀ t, W_K a ≠ .ok t)
      ∧ (W_V a = .error (.notImplementedError adapter_unsupported_msg)
        ∧ ∀ t, W_V a ≠ .ok t)
      ∧ (W_O a = .error (.notImplementedError adapter_unsupported_msg)
        ∧ ∀ t, W_O a ≠ .ok t)
      ∧ (W_in a = .error (.notImplementedError adapter_unsupported_msg)
        ∧ ∀ t, W_in a ≠ .ok t)
      ∧ (W_gate a = .error (.notImplementedError adapter_unsupported_msg)
        ∧ ∀ t, W_gate a ≠ .ok t)
      ∧ (W_out a = .error (.notImplementedError adapter_unsupported_msg)
        ∧ ∀ t, W_out a ≠ .ok t)
      ∧ (b_Q a = .error (.notImplementedError adapter_unsupported_msg)
        ∧ ∀ t, b_Q a ≠ .ok t)
      ∧ (b_K a = .error (.notImplementedError adapter_unsupported_msg)
        ∧ ∀ t, b_K a ≠ .ok t)
      ∧ (b_V a = .error (.notImplementedError adapter_unsupported_msg)
        ∧ ∀ t, b_V a ≠ .ok t)
      ∧ (b_O a = .error (.notImplementedError adapter_unsupported_msg)
        ∧ ∀ t, b_O a ≠ .ok t)
      ∧ (b_in a = .error (.notImplementedError adapter_unsupported_msg)
        ∧ ∀ t, b_in a ≠ .ok t)
      ∧ (b_out a = .error (.notImplementedError adapter_unsupported_msg)
        ∧ ∀ t, b_out a ≠ .ok t)
      ∧ (QK a = .error (.notImplementedError adapter_unsupported_msg)
        ∧ ∀ t, QK a ≠ .ok t)
      ∧ (OV a = .error (.notImplementedError adapter_unsupported_msg)
        ∧ ∀ t, OV a ≠ .ok t) :=
  ⟨⟨rfl, fun _t h => nomatch h⟩, ⟨rfl, fun _t h => nomatch h⟩,
   ⟨rfl, fun _t h => nomatch h⟩, ⟨rfl, fun _t h => nomatch h⟩,
   ⟨rfl, fun _t h => nomatch h⟩, ⟨rfl, fun _t h => nomatch h⟩,
   ⟨rfl, fun _t h => nomatch h⟩, ⟨rfl, fun _t h => nomatch h⟩,
   ⟨rfl, fun _t h => nomatch h⟩, ⟨rfl, fun _t h => nomatch h⟩,
   ⟨rfl, fun _t h => nomatch h⟩, ⟨rfl, fun _t h => nomatch h⟩,
   ⟨rfl, fun _t h => nomatch h⟩, ⟨rfl, fun _t h => nomatch h⟩,
   ⟨rfl, fun _t h => nomatch h⟩⟩

/--
Claim C8: with no explicit tokenizer and no tokenizer name in the config,
the assertion half of the claim holds (`d_vocab = -1` raises
`AssertionError`), but the success half does not: even with an explicit
vocabulary size the construction crashes, because
`self.tokenizer.pad_token = self.tokenizer.eos_token` (line 191) runs
unconditionally on the `None` tokenizer and raises `AttributeError`.
-/
theorem claim_C8_no_tokenizer_crashes :
    init_tokenizer none ⟨none, 50257⟩ (fun _ => ⟨none, none⟩) (fun _ => false)
        = .error (.attributeError "NoneType object has no attribute eos_token")
      ∧ init_tokenizer none ⟨none, -1⟩ (fun _ => ⟨none, none⟩) (fun _ => false)
        = .error (.assertionError
            "Must provide a tokenizer if d_vocab is not provided") := by
  refine ⟨?_, ?_⟩ <;> rfl

/--
Claim C9: adapter construction accepts exactly one of the two input modes —
model resolution succeeds iff either a model name is supplied alone, or a
pre-constructed model and tokenizer are both supplied without a name;
supplying both modes, neither, or an incomplete pair yields an error and no
model object.
-/
theorem claim_C9_exactly_one_mode (hf : Option String) (model : Option Module)
    (tok : Option Tokenizer) (fp : String → Module) :
    (∃ r, resolve_model hf model tok fp = .ok r)
      ↔ ((hf.isSome = true ∧ model = none ∧ tok = none)
          ∨ (hf = none ∧ model.isSome = true ∧ tok.isSome = true)) := by
  cases hf <;> cases model <;> cases tok <;>
    simp [resolve_model, validate_args]

/--
Claim C10: wrapping mutates the original module in place — after
`auto_hook m`, every named child of `m` has been replaced (by attribute
assignment on `m` itself) with `wrap_child` of it, i.e. an instrumented
wrapper or a freshly built container of wrappers; the returned wrapper
holds this mutated object as its `_module`; the installed `unwrap` closure
returns the same mutated object; and whenever `m` has a child that is
neither an observation point nor a container, the mutated object differs
from the original until `unwrap_instance` restores it.
-/
theorem claim_C10_inplace_mutation (m : Module) :
    namedChildren (wrap_submodules m)
        = (namedChildren m).map (fun x => (x.1, wrap_child x.2))
      ∧ auto_hook m = .hooked (!hasHookPointAttr m) (wrap_submodules m)
      ∧ unwrap_lambda m = wrap_submodules m
      ∧ ((∃ x ∈ namedChildren m,
            isHookPointB x.2 = false ∧ isContainerB x.2 = false) →
          wrap_submodules m ≠ m) := by
  refine ⟨namedChildren_wrap_submodules m, rfl, rfl, ?_⟩
  rintro ⟨⟨n, c⟩, hmem, hnh, hnc⟩ heq
  have h1 := congrArg namedChildren heq
  rw [namedChildren_wrap_submodules] at h1
  have h2 := map_self_mem _ _ h1 (n, c) hmem
  have h3 : wrap_child c = c := congrArg Prod.snd h2
  cases c <;> simp_all [wrap_child, isHookPointB, isContainerB, hasHookPointAttr]

/-- Witness for claim C10 at a module with one plain child. -/
theorem claim_C10_witness :
    namedChildren (wrap_submodules (.prim [] true [("c", .prim [] true [])]))
        = (namedChildren (Module.prim [] true [("c", .prim [] true [])])).map
            (fun x => (x.1, wrap_child x.2))
      ∧ auto_hook (.prim [] true [("c", .prim [] true [])])
        = .hooked (!hasHookPointAttr (.prim [] true [("c", .prim [] true [])]))
            (wrap_submodules (.prim [] true [("c", .prim [] true [])]))
      ∧ unwrap_lambda (.prim [] true [("c", .prim [] true [])])
        = wrap_submodules (.prim [] true [("c", .prim [] true [])])
      ∧ wrap_submodules (.prim [] true [("c", .prim [] true [])])
        ≠ .prim [] true [("c", .prim [] true [])] := by
  have h := claim_C10_inplace_mutation (.prim [] true [("c", .prim [] true [])])
  exact ⟨h.1, h.2.1, h.2.2.1,
    h.2.2.2 ⟨("c", .prim [] true []), by simp [namedChildren],
      by simp [isHookPointB], by simp [isContainerB]⟩⟩

end AutoHookPoint
